import Mathlib

/-!
Verification development for the `llm-poker-arena` repository.

Shallow embedding of the core algorithms:
* `ActionParser` (src/llm_poker/agents/action_parser.py) together with a
  small backtracking matcher that implements exactly the regular-expression
  constructs used by its `PATTERNS` list (literal characters, the character
  classes `\s`, `[\s-]`, `\d`, `[\d,]` with the quantifiers `?`, `*`, `+`,
  and the word-boundary assertion `\b`), with Python `re.search` semantics:
  leftmost starting position first, greedy quantifiers with backtracking.
  Note that the source calls `re.search(pattern, text)` WITHOUT the
  `re.IGNORECASE` flag, so the embedding is case sensitive exactly like the
  source.  Word characters are modelled as ASCII alphanumerics plus `_`
  (all strings appearing in the specification are ASCII).
* the tool-round loop of `PokerAgent.get_action`
  (src/llm_poker/agents/poker_agent.py),
* `BlindStructure` (src/llm_poker/tournament/blind_structure.py), with
  Python floats modelled as exact rationals,
* `EloSystem.update_ratings` (src/llm_poker/analytics/elo.py) over ℝ,
* `calculate_pot_odds` (src/llm_poker/tools/pot_odds.py) over ℚ,
* an abstract chip-flow model of one hand (the pot collection and
  distribution are performed by the external `pokerkit` engine).
-/

namespace LlmPoker

/-! ## A tiny matcher for the parser's regular expressions -/

/-- Whitespace characters of Python's `\s` (ASCII part). -/
def isSpaceChar (c : Char) : Bool :=
  c = ' ' || c = '\t' || c = '\n' || c = '\r' || c = '\x0b' || c = '\x0c'

/-- Word characters of Python's `\b` boundary (ASCII part: `[A-Za-z0-9_]`). -/
def isWordChar (c : Char) : Bool :=
  ('a' ≤ c && c ≤ 'z') || ('A' ≤ c && c ≤ 'Z') || c.isDigit || c = '_'

/-- Character classes occurring in `ActionParser.PATTERNS`. -/
inductive CClass where
  | ws         -- `\s`
  | wsHyphen   -- `[\s-]`
  | digit      -- `\d`
  | digitComma -- `[\d,]`
deriving DecidableEq, Repr

def CClass.fn : CClass → Char → Bool
  | .ws, c => isSpaceChar c
  | .wsHyphen, c => isSpaceChar c || c = '-'
  | .digit, c => c.isDigit
  | .digitComma, c => c.isDigit || c = ','

/-- Quantifiers occurring in `ActionParser.PATTERNS`. -/
inductive Quant where
  | one  -- exactly one occurrence
  | opt  -- `?`
  | star -- `*`
  | plus -- `+`
deriving DecidableEq, Repr

/-- Given the length `r` of the maximal run of class characters, the
greedy matcher tries consumption counts from `hi` down to `lo`. -/
def Quant.bounds : Quant → Nat → Nat × Nat
  | .one, r => (Nat.min r 1, 1)
  | .opt, r => (Nat.min r 1, 0)
  | .star, r => (r, 0)
  | .plus, r => (r, 1)

/-- One element of a pattern: a literal character, a quantified character
class, or the word-boundary assertion `\b`. -/
inductive Item where
  | lit (c : Char)
  | cls (cl : CClass) (q : Quant)
  | wb
deriving DecidableEq, Repr

/-- Length of the maximal run of characters satisfying `p`. -/
def leadingRun (p : Char → Bool) : List Char → Nat
  | [] => 0
  | c :: t => if p c then leadingRun p t + 1 else 0

def isWordOpt : Option Char → Bool
  | none => false
  | some c => isWordChar c

/-- Python's `\b`: positions where exactly one neighbour is a word character
(`none` stands for the start/end of the string). -/
def wordBoundary (prev next : Option Char) : Bool :=
  isWordOpt prev != isWordOpt next

/-- Try consumption counts `k, k-1, …, lo` for a quantified class whose
maximal run in `s` is at least `k`; `cont` matches the rest of the pattern.
Returns the consumed characters of each remaining item on success. -/
def tryCounts (cont : List Char → Option Char → Option (List (List Char)))
    (s : List Char) (prev : Option Char) (lo : Nat) : Nat → Option (List (List Char))
  | 0 =>
    if lo = 0 then
      match cont s prev with
      | some r => some ([] :: r)
      | none => none
    else none
  | k + 1 =>
    if k + 1 < lo then none
    else
      match cont (s.drop (k + 1))
          (match (s.drop k).head? with | some c => some c | none => prev) with
      | some r => some (s.take (k + 1) :: r)
      | none => tryCounts cont s prev lo k

/-- Match a pattern against a prefix of `s` (`prev` is the character just
before the current position).  On success, returns the list of characters
consumed by each item (zero-width items consume `[]`).  Greedy with
backtracking, like Python's `re`. -/
def matchSeq : List Item → List Char → Option Char → Option (List (List Char))
  | [], _, _ => some []
  | .wb :: rest, s, prev =>
    if wordBoundary prev s.head? then
      match matchSeq rest s prev with
      | some r => some ([] :: r)
      | none => none
    else none
  | .lit c :: rest, s, _ =>
    match s with
    | [] => none
    | c' :: s' =>
      if c' = c then
        match matchSeq rest s' (some c') with
        | some r => some ([c'] :: r)
        | none => none
      else none
  | .cls cl q :: rest, s, prev =>
    let b := q.bounds (leadingRun cl.fn s)
    tryCounts (fun s' prev' => matchSeq rest s' prev') s prev b.2 b.1

/-- Python `re.search`: try to match at position 0, then 1, … (including the
position at the end of the string). -/
def searchFrom (pat : List Item) : Option Char → List Char → Option (List (List Char))
  | prev, [] => matchSeq pat [] prev
  | prev, c :: t =>
    match matchSeq pat (c :: t) prev with
    | some r => some r
    | none => searchFrom pat (some c) t

/-! ## ActionParser (src/llm_poker/agents/action_parser.py) -/

/-- A legal-action dict as consumed by `ActionParser.parse`
(keys `action_type`, `amount`, `min_raise`, `max_raise`; absent keys are
`none`, mirroring `dict.get`). -/
structure LegalActionD where
  action_type : String
  amount : Option Int := none
  min_raise : Option Int := none
  max_raise : Option Int := none
deriving DecidableEq, Repr

/-- Mirror of the `ParsedAction` dataclass. -/
structure ParsedAction where
  action_type : String
  amount : Option Int
  success : Bool
  raw_match : Option String
  error : Option String := none
deriving DecidableEq, Repr

/-- Python truthiness of an optional integer (`None` and `0` are falsy). -/
def truthy : Option Int → Bool
  | none => false
  | some n => n != 0

/-- One entry of `ActionParser.PATTERNS`: the compiled pattern, the action
type, and the amount capture-group index (`none` for patterns without an
amount).  `grp` records where capture group 1 sits inside `items`
(offset and number of items). -/
structure Pat where
  items : List Item
  action_type : String
  amountGroup : Option Nat
  grp : Nat × Nat
deriving DecidableEq, Repr

def lits (w : String) : List Item := w.data.map Item.lit

/-- Items of an amount-bearing pattern `\bWORD\s+(\d[\d,]*)\b`. -/
def amountItems (w : String) : List Item :=
  [Item.wb] ++ lits w ++
    [Item.cls .ws .plus, Item.cls .digit .one, Item.cls .digitComma .star, Item.wb]

/-- Items of `\bWORD1\s+WORD2\s+(\d[\d,]*)\b`. -/
def amountItems2 (w1 w2 : String) : List Item :=
  [Item.wb] ++ lits w1 ++ [Item.cls .ws .plus] ++ lits w2 ++
    [Item.cls .ws .plus, Item.cls .digit .one, Item.cls .digitComma .star, Item.wb]

/-- Items of a bare-word pattern `\bWORD\b`. -/
def wordItems (w : String) : List Item := [Item.wb] ++ lits w ++ [Item.wb]

/-- The ordered pattern list of `ActionParser.PATTERNS` (source order). -/
def PATTERNS : List Pat :=
  [ -- (r"\b(ALL[\s-]?IN)\b", "allin", None)
    ⟨[Item.wb] ++ lits "ALL" ++ [Item.cls .wsHyphen .opt] ++ lits "IN" ++ [Item.wb],
      "allin", none, (1, 6)⟩,
    -- (r"\bgo\s+all[\s-]?in\b", "allin", None)
    ⟨[Item.wb] ++ lits "go" ++ [Item.cls .ws .plus] ++ lits "all" ++
        [Item.cls .wsHyphen .opt] ++ lits "in" ++ [Item.wb],
      "allin", none, (0, 0)⟩,
    -- (r"\bRAISE\s+TO\s+(\d[\d,]*)\b", "raise", 1)
    ⟨amountItems2 "RAISE" "TO", "raise", some 1, (10, 2)⟩,
    -- (r"\bRAISE\s+(\d[\d,]*)\b", "raise", 1)
    ⟨amountItems "RAISE", "raise", some 1, (7, 2)⟩,
    -- (r"\braise\s+to\s+(\d[\d,]*)\b", "raise", 1)
    ⟨amountItems2 "raise" "to", "raise", some 1, (10, 2)⟩,
    -- (r"\braise\s+(\d[\d,]*)\b", "raise", 1)
    ⟨amountItems "raise", "raise", some 1, (7, 2)⟩,
    -- (r"\bBET\s+(\d[\d,]*)\b", "raise", 1)
    ⟨amountItems "BET", "raise", some 1, (5, 2)⟩,
    -- (r"\bbet\s+(\d[\d,]*)\b", "raise", 1)
    ⟨amountItems "bet", "raise", some 1, (5, 2)⟩,
    -- simple actions
    ⟨wordItems "FOLD", "fold", none, (0, 0)⟩,
    ⟨wordItems "fold", "fold", none, (0, 0)⟩,
    ⟨wordItems "CHECK", "check", none, (0, 0)⟩,
    ⟨wordItems "check", "check", none, (0, 0)⟩,
    ⟨wordItems "CALL", "call", none, (0, 0)⟩,
    ⟨wordItems "call", "call", none, (0, 0)⟩,
    -- raise without amount
    ⟨wordItems "RAISE", "raise", none, (0, 0)⟩,
    ⟨wordItems "raise", "raise", none, (0, 0)⟩ ]

/-- The source's legal-action scan: the loop over `legal_actions` records
`min_raise`/`max_raise` from (the last) raise entry and `amount` from (the
last) call entry.  Returns `(min_raise, max_raise, call_amount)`. -/
def scanLegal (legal : List LegalActionD) : Option Int × Option Int × Option Int :=
  legal.foldl
    (fun acc a =>
      if a.action_type = "raise" then (a.min_raise, a.max_raise, acc.2.2)
      else if a.action_type = "call" then (acc.1, acc.2.1, a.amount)
      else acc)
    (none, none, none)

/-- Python `action_type in legal_types` (set of the `action_type` values). -/
def hasType (legal : List LegalActionD) (t : String) : Bool :=
  legal.any (fun a => a.action_type = t)

/-- Characters captured by group 1: concatenation of the characters consumed
by the items in the group's range. -/
def groupChars (consumed : List (List Char)) (off len : Nat) : List Char :=
  ((consumed.drop off).take len).flatten

/-- Python `int` on a nonempty string of decimal digits. -/
def pyIntOfDigits (l : List Char) : Nat :=
  l.foldl (fun acc c => 10 * acc + (c.toNat - '0'.toNat)) 0

/-- Mirror of `int(match.group(1).replace(",", ""))` guarded by the source's
`try/except (IndexError, ValueError): pass` (a failure leaves `amount = None`). -/
def parsedAmount (g : List Char) : Option Int :=
  let ds := g.filter (fun c => c ≠ ',')
  if ds ≠ [] ∧ ds.all Char.isDigit then some (pyIntOfDigits ds : Nat) else none

/-- The source's raise clamp (action_parser.py lines 130-134):
`if amount is not None and min_raise and max_raise: amount = max(min_raise,
min(amount, max_raise)); elif min_raise: amount = min_raise`. -/
def clampRaise (amount mn mx : Option Int) : Option Int :=
  match amount with
  | some a =>
    if truthy mn ∧ truthy mx then some (max (mn.getD 0) (min a (mx.getD 0)))
    else if truthy mn then mn
    else some a
  | none => if truthy mn then mn else none

/-- The `for pattern, action_type, amount_group in cls.PATTERNS` loop of
`ActionParser.parse`; `continue` is modelled by recursing on the remaining
patterns, falling through to the parse-failure result. -/
def parseLoop (s : List Char) (legal : List LegalActionD)
    (mn mx ca : Option Int) : List Pat → ParsedAction
  | [] =>
    ⟨"fold", none, false, none,
      some ("Could not parse action from response: " ++ String.mk (s.take 200))⟩
  | p :: rest =>
    match searchFrom p.items none s with
    | none => parseLoop s legal mn mx ca rest
    | some consumed =>
      let raw := String.mk consumed.flatten
      if p.action_type = "allin" then
        if hasType legal "raise" ∧ truthy mx then
          ⟨"raise", mx, true, some raw, none⟩
        else if hasType legal "call" then
          ⟨"call", ca, true, some raw, none⟩
        else parseLoop s legal mn mx ca rest
      else
        let amount : Option Int :=
          match p.amountGroup with
          | none => none
          | some _ => parsedAmount (groupChars consumed p.grp.1 p.grp.2)
        if p.action_type = "raise" then
          if ¬ hasType legal "raise" then
            if hasType legal "call" then ⟨"call", ca, true, some raw, none⟩
            else parseLoop s legal mn mx ca rest
          else
            ⟨"raise", clampRaise amount mn mx, true, some raw, none⟩
        else if p.action_type = "check" then
          if ¬ hasType legal "check" then
            if hasType legal "call" then ⟨"call", ca, true, some raw, none⟩
            else parseLoop s legal mn mx ca rest
          else ⟨"check", none, true, some raw, none⟩
        else if p.action_type = "call" then
          if ¬ hasType legal "call" then
            if hasType legal "check" then ⟨"check", none, true, some raw, none⟩
            else parseLoop s legal mn mx ca rest
          else ⟨"call", ca, true, some raw, none⟩
        else if p.action_type = "fold" then
          ⟨"fold", none, true, some raw, none⟩
        else parseLoop s legal mn mx ca rest

/-- Mirror of `ActionParser.parse`. -/
def parse (response_text : String) (legal_actions : List LegalActionD) : ParsedAction :=
  if response_text = "" then
    ⟨"fold", none, false, none, some "Empty response"⟩
  else
    let l := scanLegal legal_actions
    parseLoop response_text.data legal_actions l.1 l.2.1 l.2.2 PATTERNS

/-- Mirror of `ActionParser.get_default_action`. -/
def getDefaultAction (legal_actions : List LegalActionD) : ParsedAction :=
  if hasType legal_actions "check" then
    ⟨"check", none, false, none, some "Using default action: CHECK"⟩
  else
    ⟨"fold", none, false, none, some "Using default action: FOLD"⟩

/-! ## The tool-round loop of `PokerAgent.get_action`
(src/llm_poker/agents/poker_agent.py).  The LLM is abstracted as an oracle
mapping the index of a completion call to its response. -/

/-- What the loop observes of one LLM completion: the text content and
whether the assistant message carries tool calls. -/
structure LLMResponse where
  content : String
  hasToolCalls : Bool

/-- The `tool_choice` kwarg produced by `_call_llm` (lines 241-249): set
only when the model supports function calling; `"none"` when
`force_text_response` is true, else `"auto"`. -/
def callChoice (supportsTools force_text_response : Bool) : Option String :=
  if supportsTools then some (if force_text_response then "none" else "auto")
  else none

/-- `max_tool_rounds = 3` in `get_action`. -/
def MAX_TOOL_ROUNDS : Nat := 3

/-- The `while tool_round < max_tool_rounds` loop of `get_action`
(lines 114-158).  `budget` is `max_tool_rounds - tool_round`, `idx` numbers
the completion calls, `prevIdx` is the index of the response obtained by the
previous iteration.  Both call sites of `_call_llm` inside `get_action` pass
the defaults `include_tools=True, force_text_response=False`.  Returns
(number of tool rounds executed, the `tool_choice` of every call made by the
loop, index of the response held in `response` when the loop exits). -/
def toolLoop (oracle : Nat → LLMResponse) (supportsTools : Bool) :
    Nat → Nat → Nat → Nat × List (Option String) × Nat
  | 0, _, prevIdx => (0, [], prevIdx)
  | budget + 1, idx, _ =>
    let choice := callChoice supportsTools false
    let r := oracle idx
    if r.hasToolCalls then
      let t := toolLoop oracle supportsTools budget (idx + 1) idx
      (t.1 + 1, choice :: t.2.1, t.2.2)
    else (0, [choice], idx)

/-- The loop as entered by `get_action`: `tool_round = 0`, first call has
index 0. -/
def runToolPhase (oracle : Nat → LLMResponse) (supportsTools : Bool) :
    Nat × List (Option String) × Nat :=
  toolLoop oracle supportsTools MAX_TOOL_ROUNDS 0 0

/-- `response_text = response.choices[0].message.content or ""` after the
loop: the content of the response the loop exited with. -/
def responseTextAfterLoop (oracle : Nat → LLMResponse) (supportsTools : Bool) : String :=
  (oracle (runToolPhase oracle supportsTools).2.2).content

/-! ## BlindStructure (src/llm_poker/tournament/blind_structure.py).
Python floats are modelled as exact rationals (`0.1` as `1/10`, `1.5` as
`3/2`); on the small level indices inspected by the theorems below, exact
binary-float evaluation of the source produces the same integers. -/

structure BlindLevel where
  small_blind : Int
  big_blind : Int
  ante : Int
deriving DecidableEq, Repr

/-- Python `int()` truncation toward zero, on a rational (numerator divided
by denominator, rounding toward zero). -/
def pyInt (q : ℚ) : Int := q.num.tdiv (q.den : Int)

/-- The `for _ in range(max_levels)` loop of `_generate_levels` (lines
51-70).  `count` is `len(self.levels)` before the append of the current
iteration.  Note the ante update reads `bb` after `bb` has already been
multiplied for the next level, and runs after the append. -/
def genLevels (multiplier : ℚ) : Nat → Nat → ℚ → ℚ → ℚ → List BlindLevel
  | 0, _, _, _, _ => []
  | n + 1, count, sb, bb, ante =>
    ⟨pyInt sb, pyInt bb, pyInt ante⟩ ::
      (let sb' := sb * multiplier
       let bb' := bb * multiplier
       let ante' : ℚ :=
         if count + 1 ≥ 3 ∧ ante = 0 then ((pyInt (bb' * (1 / 10)) : Int) : ℚ)
         else if ante > 0 then ante * multiplier
         else ante
       genLevels multiplier n (count + 1) sb' bb' ante')

/-- Constructor arguments of `BlindStructure.__init__` with their defaults. -/
structure BlindStructureCfg where
  initial_small_blind : Int := 5000
  initial_big_blind : Int := 10000
  initial_ante : Int := 0
  hands_per_level : Nat := 20
  multiplier : ℚ := 3 / 2
  max_levels : Nat := 50

/-- `self.levels` generated by the constructor. -/
def BlindStructureCfg.levels (cfg : BlindStructureCfg) : List BlindLevel :=
  genLevels cfg.multiplier cfg.max_levels 0
    (cfg.initial_small_blind : ℚ) (cfg.initial_big_blind : ℚ) (cfg.initial_ante : ℚ)

/-- The mutable state of a `BlindStructure`. -/
structure BSState where
  current_level_index : Nat
  hands_at_current_level : Nat
deriving DecidableEq, Repr

/-- State after `__init__` (also after `reset`). -/
def initialBSState : BSState := ⟨0, 0⟩

/-- Mirror of `BlindStructure.hand_completed` (lines 85-97); the comparison
`current_level_index < len(self.levels) - 1` is over Python integers, hence
taken in `Int`. -/
def handCompleted (cfg : BlindStructureCfg) (st : BSState) : BSState × Bool :=
  let hands := st.hands_at_current_level + 1
  if cfg.hands_per_level ≤ hands ∧
      (st.current_level_index : Int) < (cfg.levels.length : Int) - 1 then
    (⟨st.current_level_index + 1, 0⟩, true)
  else
    (⟨st.current_level_index, hands⟩, false)

/-- Mirror of `get_current_level` (`self.levels[self.current_level_index]`,
`none` when the index is out of bounds). -/
def getCurrentLevel (cfg : BlindStructureCfg) (st : BSState) : Option BlindLevel :=
  cfg.levels[st.current_level_index]?

/-- Mirror of `get_blinds`. -/
def getBlinds (cfg : BlindStructureCfg) (st : BSState) : Option (Int × Int) :=
  (getCurrentLevel cfg st).map (fun l => (l.small_blind, l.big_blind))

/-- State after `n` calls of `hand_completed` on a fresh structure. -/
def iterateHands (cfg : BlindStructureCfg) : Nat → BSState
  | 0 => initialBSState
  | n + 1 => (handCompleted cfg (iterateHands cfg n)).1

/-! ## EloSystem (src/llm_poker/analytics/elo.py).  Python float arithmetic
is modelled over ℝ; `round` is the integer rounding of ℝ (Python's banker's
rounding differs only at exact half-integers). -/

def K_NEW_PLAYER : Int := 40
def K_NORMAL : Int := 20
def K_ESTABLISHED : Int := 10
def DEFAULT_RATING : Int := 1500

/-- Mirror of the `EloRating` dataclass (the `model` name is omitted: it does
not enter the update law). -/
structure EloRating where
  rating : Int
  games_played : Nat
  wins : Nat
  losses : Nat
  draws : Nat
deriving DecidableEq, Repr

/-- A rating created by `get_rating` for a fresh model. -/
def freshRating : EloRating := ⟨DEFAULT_RATING, 0, 0, 0, 0⟩

/-- Mirror of `EloSystem._expected_score`. -/
noncomputable def expectedScore (rating_a rating_b : Int) : ℝ :=
  1 / (1 + (10 : ℝ) ^ (((rating_b : ℝ) - (rating_a : ℝ)) / 400))

/-- Mirror of `EloSystem._get_k_factor`. -/
def getKFactor (games_played : Nat) : Int :=
  if games_played < 30 then K_NEW_PLAYER
  else if games_played < 100 then K_NORMAL
  else K_ESTABLISHED

/-- Mirror of `EloSystem.update_ratings` (lines 55-110): expected scores from
pre-match ratings, K-factors from pre-match `games_played`, new ratings
`int(round(R + K * (S - E)))`, then counters are incremented. -/
noncomputable def updateRatings (winner loser : EloRating) (draw : Bool) :
    EloRating × EloRating :=
  let expected_winner := expectedScore winner.rating loser.rating
  let expected_loser := expectedScore loser.rating winner.rating
  let actual_winner : ℝ := if draw then 1 / 2 else 1
  let actual_loser : ℝ := if draw then 1 / 2 else 0
  let k_winner := getKFactor winner.games_played
  let k_loser := getKFactor loser.games_played
  let winner_new := (winner.rating : ℝ) + (k_winner : ℝ) * (actual_winner - expected_winner)
  let loser_new := (loser.rating : ℝ) + (k_loser : ℝ) * (actual_loser - expected_loser)
  (⟨round winner_new, winner.games_played + 1,
      winner.wins + (if draw then 0 else 1), winner.losses,
      winner.draws + (if draw then 1 else 0)⟩,
   ⟨round loser_new, loser.games_played + 1, loser.wins,
      loser.losses + (if draw then 0 else 1),
      loser.draws + (if draw then 1 else 0)⟩)

/-! ## calculate_pot_odds (src/llm_poker/tools/pot_odds.py).  Python float
arithmetic is modelled over ℚ; `round(x, 1)` and `f"{x:.1f}"` round ties
half-to-even, which on the float grid of the source never arise, so plain
rounding is used. -/

structure PotOddsResult where
  pot_odds_percentage : ℚ
  pot_odds_ratio : String
  break_even_equity : ℚ
  recommendation : String
deriving DecidableEq, Repr

/-- Python `round(x, 1)`. -/
def round1 (q : ℚ) : ℚ := ((round (q * 10) : Int) : ℚ) / 10

/-- Python `f"{x:.1f}"`. -/
def fmt1 (q : ℚ) : String :=
  let n : Int := round (q * 10)
  if n < 0 then "-" ++ toString ((-n) / 10) ++ "." ++ toString ((-n) % 10)
  else toString (n / 10) ++ "." ++ toString (n % 10)

/-- Mirror of `calculate_pot_odds`; `none` models the `ZeroDivisionError`
the source raises when `pot_size + bet_to_call == 0` with a positive call. -/
def calculate_pot_odds (pot_size bet_to_call : Int) : Option PotOddsResult :=
  if bet_to_call ≤ 0 then
    some ⟨0, "0:1", 0,
      "No bet to call - check is free, any hand has positive expected value."⟩
  else
    let total_pot_after_call := pot_size + bet_to_call
    if total_pot_after_call = 0 then none
    else
      let pot_odds_pct : ℚ :=
        ((bet_to_call : ℚ) / (total_pot_after_call : ℚ)) * 100
      let ratio : ℚ := (pot_size : ℚ) / (bet_to_call : ℚ)
      let recommendation :=
        if pot_odds_pct < 20 then
          "Excellent pot odds! You only need " ++ fmt1 pot_odds_pct ++
            "% equity to call profitably. Consider calling with a wide range of draws and made hands."
        else if pot_odds_pct < 33 then
          "Good pot odds. You need " ++ fmt1 pot_odds_pct ++
            "% equity to call. Most draws and medium-strength hands can call."
        else if pot_odds_pct < 40 then
          "Marginal pot odds. You need " ++ fmt1 pot_odds_pct ++
            "% equity to call. Only call with strong draws or made hands."
        else
          "Poor pot odds. You need " ++ fmt1 pot_odds_pct ++
            "% equity to call. Fold weak hands and marginal draws."
      some ⟨round1 pot_odds_pct, fmt1 ratio ++ ":1", round1 pot_odds_pct,
        recommendation⟩

/-! ## Chip flow of one hand (HandManager.play_hand, lines 143-153, and
GameStateWrapper.get_winners).  The betting bookkeeping and the pot
distribution happen inside the external `pokerkit` engine, which is not part
of this repository's sources; it is modelled here from the spec. -/

/-- Modelled from the spec: the chip bookkeeping of one hand, which the
source delegates to the external `pokerkit` state driven by
`GameStateWrapper`.  Blinds, antes, calls, bets and raises move chips from a
seat's stack into that seat's total commitment; the pot is the sum of all
commitments (spec §3, hand invariants). -/
structure ChipState (n : Nat) where
  «stacks» : Fin n → Nat
  committed : Fin n → Nat

def initChips {n : Nat} (starting : Fin n → Nat) : ChipState n :=
  ⟨starting, fun _ => 0⟩

/-- Seat `i` commits `c` chips (moved from stack to commitment). -/
def commitChips {n : Nat} (st : ChipState n) (i : Fin n) (c : Nat) : ChipState n :=
  ⟨Function.update st.stacks i (st.stacks i - c),
   Function.update st.committed i (st.committed i + c)⟩

/-- Run a sequence of commitments (the betting of the hand). -/
def playCommits {n : Nat} : List (Fin n × Nat) → ChipState n → ChipState n
  | [], st => st
  | (i, c) :: t, st => playCommits t (commitChips st i c)

/-- Every commitment is covered by the seat's current stack (a seat can bet
at most its remaining chips). -/
def validCommits {n : Nat} : List (Fin n × Nat) → ChipState n → Prop
  | [], _ => True
  | (i, c) :: t, st => c ≤ st.stacks i ∧ validCommits t (commitChips st i c)

instance validCommitsDec {n : Nat} :
    (cs : List (Fin n × Nat)) → (st : ChipState n) → Decidable (validCommits cs st)
  | [], _ => isTrue trivial
  | (i, c) :: t, st =>
    have : Decidable (validCommits t (commitChips st i c)) := validCommitsDec t _
    inferInstanceAs (Decidable (_ ∧ _))

/-- The pot: sum of all commitments. -/
def potOf {n : Nat} (st : ChipState n) : Nat := ∑ i, st.committed i

/-- Modelled from the spec: pokerkit's `CHIPS_PUSHING` / `CHIPS_PULLING`
automations distribute the pot among the seats (zero rake: the distribution
sums to the whole pot); final stacks after the award. -/
def stacksAfterAward {n : Nat} (st : ChipState n) (d : Fin n → Nat) : Fin n → Nat :=
  fun i => st.stacks i + d i

/-- Modelled from the spec: pokerkit's `payoffs` — chips received by the
award minus chips committed during the hand (what `play_hand` reads at line
145 and `get_winners` filters for positive entries). -/
def payoffsOf {n : Nat} (st : ChipState n) (d : Fin n → Nat) : Fin n → Int :=
  fun i => (d i : Int) - (st.committed i : Int)

/-- Mirror of `get_winners`: seats with positive payoff and their winnings. -/
def winnersOf {n : Nat} (st : ChipState n) (d : Fin n → Nat) : List (Fin n × Int) :=
  (List.finRange n).filterMap (fun i =>
    if 0 < payoffsOf st d i then some (i, payoffsOf st d i) else none)

/-! ## Shared concrete fixtures -/

/-- The legal-action set of spec scenario S2: fold, call at 200, raise in
[400, 1000]. -/
def legalS2 : List LegalActionD :=
  [⟨"fold", none, none, none⟩, ⟨"call", some 200, none, none⟩,
   ⟨"raise", none, some 400, some 1000⟩]

/-- A legal-action set where only fold and call (at 150) are available. -/
def legalCallOnly : List LegalActionD :=
  [⟨"fold", none, none, none⟩, ⟨"call", some 150, none, none⟩]

/-- The default `BlindStructure()` configuration. -/
def defaultBlindCfg : BlindStructureCfg := {}

/-- A one-level structure: the last level is reached immediately. -/
def tinyBlindCfg : BlindStructureCfg := { max_levels := 1 }

/-- An oracle whose every response requests more tool calls. -/
def allToolsOracle : Nat → LLMResponse := fun _ => ⟨"", true⟩

/-- No pattern of the parser finds a match in `s`. -/
def noPatternMatches (s : String) : Prop :=
  ∀ p ∈ PATTERNS, searchFrom p.items none s.data = none

instance (s : String) : Decidable (noPatternMatches s) :=
  inferInstanceAs (Decidable (∀ p ∈ PATTERNS, searchFrom p.items none s.data = none))

/-! ## Helper lemmas -/

/-- Truncation toward zero is the floor for nonnegative rationals and the
ceiling for negative ones. -/
theorem pyInt_eq (q : ℚ) : pyInt q = if q < 0 then ⌈q⌉ else ⌊q⌋ := by
  unfold pyInt
  by_cases h : q < 0
  · have hq : ⌈q⌉ = -⌊-q⌋ := by
      have h2 := Int.ceil_neg (a := -q)
      rwa [neg_neg] at h2
    have hnum : (0 : Int) ≤ -q.num := by
      have h3 : ¬ (0 : Int) ≤ q.num := by
        rw [Rat.num_nonneg]
        exact not_le.mpr h
      omega
    rw [if_pos h, hq, Rat.floor_def]
    show q.num.tdiv q.den = -(-q.num / (q.den : Int))
    rw [show q.num.tdiv q.den = -((-q.num).tdiv q.den) by rw [Int.neg_tdiv, neg_neg],
      Int.tdiv_eq_ediv hnum (Int.ofNat_nonneg _)]
  · have hnum : (0 : Int) ≤ q.num := Rat.num_nonneg.mpr (not_lt.mp h)
    rw [if_neg h, Rat.floor_def, ← Int.tdiv_eq_ediv hnum (Int.ofNat_nonneg _)]

/-- One unfolding of the level-generation loop. -/
theorem genLevels_succ (m : ℚ) (n count : Nat) (sb bb ante : ℚ) :
    genLevels m (n + 1) count sb bb ante =
      ⟨pyInt sb, pyInt bb, pyInt ante⟩ ::
        genLevels m n (count + 1) (sb * m) (bb * m)
          (if count + 1 ≥ 3 ∧ ante = 0 then ((pyInt (bb * m * (1 / 10)) : Int) : ℚ)
           else if ante > 0 then ante * m else ante) := rfl

/-! ## Theorems -/

/-- C3.  The spec says an all-in token in any letter case resolves to a raise
of `max_raise_to` (or, without a legal raise, a call); the source compiles
its patterns without `re.IGNORECASE` (despite the comment at
action_parser.py line 34 claiming it), so the spec's own example input
"I'm going all-in!" matches no pattern at all and parsing fails to a flagged
fold — with raise legal and with only call legal alike.  Only the uppercase
spelling reaches the all-in branch. -/
theorem C3_allin_resolution_code_bug :
    parse "I'm going all-in!" legalS2 =
      ⟨"fold", none, false, none,
        some "Could not parse action from response: I'm going all-in!"⟩ ∧
    parse "I'm going all-in!" legalCallOnly =
      ⟨"fold", none, false, none,
        some "Could not parse action from response: I'm going all-in!"⟩ ∧
    parse "I'm going ALL IN!" legalS2 =
      ⟨"raise", some 1000, true, some "ALL IN", none⟩ ∧
    parse "I'm going ALL IN!" legalCallOnly =
      ⟨"call", some 150, true, some "ALL IN", none⟩ := by
  decide

/-- C7.  The spec says pattern matching is case-insensitive, so that only
changing the letter case of the keywords preserves the parse; the source
searches case-sensitively (no `re.IGNORECASE`), covering only the all-upper
and all-lower spellings by duplicated patterns: "RAISE 100" and "raise 100"
parse to a raise, but "Raise 100" matches no pattern and fails. -/
theorem C7_case_insensitivity_code_bug :
    parse "RAISE 100" legalS2 =
      ⟨"raise", some 400, true, some "RAISE 100", none⟩ ∧
    parse "raise 100" legalS2 =
      ⟨"raise", some 400, true, some "raise 100", none⟩ ∧
    parse "Raise 100" legalS2 =
      ⟨"fold", none, false, none,
        some "Could not parse action from response: Raise 100"⟩ ∧
    parse "Fold" legalS2 =
      ⟨"fold", none, false, none,
        some "Could not parse action from response: Fold"⟩ := by
  decide

/-- C5.  The spec says the ante becomes 10% of the current big blind
starting at level 3; in the source the activation check
`len(self.levels) >= 3 and ante == 0` only fires after level 3 has already
been appended (and after `bb` was multiplied for the next level), so the
generated schedule has ante 0 on levels 1, 2 AND 3, and the ante first
appears on level 4 (as 10% of level 4's big blind, 3375 = int(33750 * 0.1)),
scaling by the multiplier afterwards. -/
theorem C5_ante_activation_code_bug :
    defaultBlindCfg.levels[0]? = some ⟨5000, 10000, 0⟩ ∧
    defaultBlindCfg.levels[1]? = some ⟨7500, 15000, 0⟩ ∧
    defaultBlindCfg.levels[2]? = some ⟨11250, 22500, 0⟩ ∧
    defaultBlindCfg.levels[3]? = some ⟨16875, 33750, 3375⟩ ∧
    defaultBlindCfg.levels[4]? = some ⟨25312, 50625, 5062⟩ := by
  have h : defaultBlindCfg.levels =
      ⟨5000, 10000, 0⟩ :: ⟨7500, 15000, 0⟩ :: ⟨11250, 22500, 0⟩ ::
        ⟨16875, 33750, 3375⟩ :: ⟨25312, 50625, 5062⟩ ::
          genLevels (3 / 2) 45 5 (151875 / 4) (151875 / 2) (30375 / 4) := by
    simp only [defaultBlindCfg, BlindStructureCfg.levels]
    rw [show (50 : Nat) = 45 + 1 + 1 + 1 + 1 + 1 by norm_num,
      genLevels_succ, genLevels_succ, genLevels_succ, genLevels_succ, genLevels_succ]
    norm_num [pyInt_eq]
  rw [h]
  simp

/-- The tool loop executes at most `budget` tool rounds. -/
theorem toolLoop_rounds_le (oracle : Nat → LLMResponse) (supports : Bool) :
    ∀ b idx prev, (toolLoop oracle supports b idx prev).1 ≤ b := by
  intro b
  induction b with
  | zero => intro idx prev; simp [toolLoop]
  | succ b ih =>
    intro idx prev
    simp only [toolLoop]
    split
    · have h := ih (idx + 1) idx
      simpa using Nat.succ_le_succ h
    · simp

/-- Every call the tool loop makes carries the default tool choice (the
`force_text_response` parameter of `_call_llm` is never set by
`get_action`). -/
theorem toolLoop_all_default_choice (oracle : Nat → LLMResponse) (supports : Bool) :
    ∀ b idx prev,
      ((toolLoop oracle supports b idx prev).2.1.all
        (fun c => c == callChoice supports false)) = true := by
  intro b
  induction b with
  | zero => intro idx prev; simp [toolLoop]
  | succ b ih =>
    intro idx prev
    simp only [toolLoop]
    split
    · simpa using ih (idx + 1) idx
    · simp

/-- C4.  The spec says that after the cap of `MAX_TOOL_ROUNDS = 3` tool
rounds the pipeline makes one further LLM call with `tool_choice="none"` to
force a plain text reply; in the source the `force_text_response` parameter
of `_call_llm` is dead (both call sites inside `get_action` use the
defaults), so every call carries `tool_choice="auto"` (or no `tool_choice`
when the model lacks function calling) and none carries `"none"`.  With a
model that requests tools on every turn, the loop makes exactly 3 calls,
executes 3 tool rounds, and then parses the content of the third
tool-calling response without any forced-text call.  The cap itself does
hold: never more than 3 tool rounds. -/
theorem C4_tool_round_cap_code_bug :
    MAX_TOOL_ROUNDS = 3 ∧
    (∀ oracle supports, (runToolPhase oracle supports).1 ≤ MAX_TOOL_ROUNDS) ∧
    (∀ oracle supports,
      ((runToolPhase oracle supports).2.1.all
        (fun c => c == callChoice supports false)) = true) ∧
    callChoice true false = some "auto" ∧
    callChoice false false = none ∧
    runToolPhase allToolsOracle true =
      (3, [some "auto", some "auto", some "auto"], 2) ∧
    (allToolsOracle 2).hasToolCalls = true ∧
    responseTextAfterLoop allToolsOracle true = "" := by
  refine ⟨rfl, ?_, ?_, rfl, rfl, rfl, rfl, rfl⟩
  · intro oracle supports
    exact toolLoop_rounds_le oracle supports MAX_TOOL_ROUNDS 0 0
  · intro oracle supports
    exact toolLoop_all_default_choice oracle supports MAX_TOOL_ROUNDS 0 0

/-- C9.  Pot-odds calculator: for a positive `bet_to_call` the percentage is
`100 * bet_to_call / (pot_size + bet_to_call)` rounded to one decimal and
`break_even_equity` coincides with it; a non-positive `bet_to_call` yields
the zero result; the spec's S4 instance `(300, 100)` gives 25.0, ratio
"3.0:1" and break-even 25.0. -/
theorem C9_pot_odds_formula :
    (∀ pot_size bet_to_call : Int, bet_to_call ≤ 0 →
      calculate_pot_odds pot_size bet_to_call =
        some ⟨0, "0:1", 0,
          "No bet to call - check is free, any hand has positive expected value."⟩) ∧
    (∀ pot_size bet_to_call : Int, 0 < bet_to_call → pot_size + bet_to_call ≠ 0 →
      ∃ r, calculate_pot_odds pot_size bet_to_call = some r ∧
        r.pot_odds_percentage =
          round1 (100 * (bet_to_call : ℚ) / ((pot_size : ℚ) + (bet_to_call : ℚ))) ∧
        r.break_even_equity = r.pot_odds_percentage) ∧
    calculate_pot_odds 300 100 =
      some ⟨25, "3.0:1", 25,
        "Good pot odds. You need 25.0% equity to call. Most draws and medium-strength hands can call."⟩ := by
  refine ⟨?_, ?_, ?_⟩
  · intro p b h
    simp [calculate_pot_odds, h]
  · intro p b hb htot
    have hble : ¬ b ≤ 0 := not_le.mpr hb
    simp only [calculate_pot_odds, if_neg hble, if_neg htot]
    refine ⟨_, rfl, ?_, rfl⟩
    show round1 ((b : ℚ) / (((p + b : Int) : ℚ)) * 100) = _
    congr 1
    push_cast
    ring
  · have h1 : ¬ (100 : Int) ≤ 0 := by norm_num
    have h2 : ¬ (300 + 100 : Int) = 0 := by norm_num
    simp only [calculate_pot_odds, if_neg h1, if_neg h2]
    norm_num [round1, fmt1, round_eq]
    refine ⟨rfl, rfl⟩

/-- Witness for C9: the theorem applied at the S4 inputs `(300, 100)` and at
a zero bet. -/
theorem C9_pot_odds_formula_witness :
    ((0 : Int) ≤ 0 ∧ calculate_pot_odds 7 0 =
      some ⟨0, "0:1", 0,
        "No bet to call - check is free, any hand has positive expected value."⟩) ∧
    ((0 : Int) < 100 ∧ (300 : Int) + 100 ≠ 0 ∧
      ∃ r, calculate_pot_odds 300 100 = some r ∧
        r.pot_odds_percentage =
          round1 (100 * (100 : ℚ) / ((300 : ℚ) + (100 : ℚ))) ∧
        r.break_even_equity = r.pot_odds_percentage) :=
  ⟨⟨le_refl 0, C9_pot_odds_formula.1 7 0 (le_refl 0)⟩,
   ⟨by norm_num, by norm_num,
    C9_pot_odds_formula.2.1 300 100 (by norm_num) (by norm_num)⟩⟩

/-- The generation loop produces exactly `max_levels` levels. -/
theorem genLevels_length (m : ℚ) :
    ∀ n count sb bb ante, (genLevels m n count sb bb ante).length = n := by
  intro n
  induction n with
  | zero => intro count sb bb ante; rfl
  | succ n ih =>
    intro count sb bb ante
    rw [genLevels_succ]
    simp [ih]

/-- The level index never grows past the last generated level. -/
theorem iterate_idx_le (cfg : BlindStructureCfg) :
    ∀ n, (iterateHands cfg n).current_level_index ≤ cfg.levels.length - 1 := by
  intro n
  induction n with
  | zero => simp [iterateHands, initialBSState]
  | succ n ih =>
    simp only [iterateHands, handCompleted]
    split
    · next h =>
      show (iterateHands cfg n).current_level_index + 1 ≤ cfg.levels.length - 1
      omega
    · exact ih

/-- At the last level `hand_completed` leaves the state's index unchanged
and reports no increase. -/
theorem handCompleted_at_last (cfg : BlindStructureCfg) (st : BSState)
    (h : st.current_level_index = cfg.levels.length - 1)
    (hml : 1 ≤ cfg.levels.length) :
    (handCompleted cfg st).2 = false ∧
    (handCompleted cfg st).1.current_level_index = st.current_level_index := by
  have hlt : ¬ ((st.current_level_index : Int) < (cfg.levels.length : Int) - 1) := by
    omega
  simp only [handCompleted]
  split
  · next hc => exact absurd hc.2 hlt
  · exact ⟨rfl, rfl⟩

/-- C10.  The level index stays within the generated schedule, so
`get_current_level` and `get_blinds` always succeed; once the last level is
reached, every further `hand_completed` returns `False` and the blinds stay
constant; the default schedule has 50 levels, so the last index is 49. -/
theorem C10_blind_level_in_bounds (cfg : BlindStructureCfg)
    (hml : 1 ≤ cfg.max_levels) :
    cfg.levels.length = cfg.max_levels ∧
    (∀ n, (iterateHands cfg n).current_level_index ≤ cfg.max_levels - 1 ∧
      (iterateHands cfg n).current_level_index < cfg.levels.length ∧
      (getCurrentLevel cfg (iterateHands cfg n)).isSome = true ∧
      (getBlinds cfg (iterateHands cfg n)).isSome = true) ∧
    (∀ n m, n ≤ m →
      (iterateHands cfg n).current_level_index = cfg.levels.length - 1 →
      (handCompleted cfg (iterateHands cfg m)).2 = false ∧
      (iterateHands cfg m).current_level_index = cfg.levels.length - 1 ∧
      getBlinds cfg (iterateHands cfg m) = getBlinds cfg (iterateHands cfg n)) ∧
    defaultBlindCfg.levels.length - 1 = 49 := by
  have hlen : cfg.levels.length = cfg.max_levels := genLevels_length _ _ _ _ _ _
  have hlen1 : 1 ≤ cfg.levels.length := hlen ▸ hml
  refine ⟨hlen, ?_, ?_, ?_⟩
  · intro n
    have hle := iterate_idx_le cfg n
    refine ⟨hlen ▸ hle, by omega, ?_, ?_⟩
    · simp only [getCurrentLevel]
      rw [List.getElem?_eq_getElem (by omega)]
      rfl
    · simp only [getBlinds, getCurrentLevel]
      rw [List.getElem?_eq_getElem (by omega)]
      rfl
  · intro n m hnm hn
    have hstay : ∀ k, n ≤ k →
        (iterateHands cfg k).current_level_index = cfg.levels.length - 1 := by
      intro k hk
      induction k with
      | zero =>
        have : n = 0 := Nat.le_zero.mp hk
        rw [← this]; exact hn
      | succ k ih =>
        rcases Nat.lt_or_ge n (k + 1) with hlt | hge
        · have hk' : n ≤ k := Nat.lt_succ_iff.mp hlt
          have hidx := ih hk'
          have := handCompleted_at_last cfg (iterateHands cfg k) hidx hlen1
          simpa [iterateHands, hidx] using this.2.trans hidx
        · have : n = k + 1 := le_antisymm hk hge
          rw [← this]; exact hn
    have hm := hstay m hnm
    have hstep := handCompleted_at_last cfg (iterateHands cfg m) hm hlen1
    refine ⟨hstep.1, hm, ?_⟩
    simp only [getBlinds, getCurrentLevel, hm, hn]
  · simp [defaultBlindCfg, BlindStructureCfg.levels, genLevels_length]

/-- Witness for C10: the theorem applied to the one-level structure, where
index 0 already is the last level. -/
theorem C10_blind_level_in_bounds_witness :
    1 ≤ tinyBlindCfg.max_levels ∧
    (0 : Nat) ≤ 0 ∧
    (iterateHands tinyBlindCfg 0).current_level_index = tinyBlindCfg.levels.length - 1 ∧
    (getCurrentLevel tinyBlindCfg (iterateHands tinyBlindCfg 0)).isSome = true ∧
    (handCompleted tinyBlindCfg (iterateHands tinyBlindCfg 0)).2 = false :=
  ⟨by decide, le_refl 0, by decide,
   (((C10_blind_level_in_bounds tinyBlindCfg (by decide)).2.1 0).2.2).1,
   ((C10_blind_level_in_bounds tinyBlindCfg (by decide)).2.2.1 0 0 (le_refl 0)
      (by decide)).1⟩

/-- C6.  ELO update law: each new rating is `round(R + K * (S - E))` with
the logistic expected score `E = 1 / (1 + 10 ^ ((R_opp - R) / 400))`,
`S = 1` / `0` / `0.5` for win / loss / draw, and `K = 40 / 20 / 10` by the
player's pre-match `games_played` bracket; two fresh 1500-rated players end
at 1520 and 1480 after one decisive match. -/
theorem C6_elo_update_law :
    (∀ (w l : EloRating) (draw : Bool),
      (updateRatings w l draw).1.rating =
        round ((w.rating : ℝ) +
          (((if w.games_played < 30 then (40 : Int)
              else if w.games_played < 100 then 20 else 10) : Int) : ℝ) *
          ((if draw then (1 : ℝ) / 2 else 1) -
            1 / (1 + (10 : ℝ) ^ (((l.rating : ℝ) - (w.rating : ℝ)) / 400)))) ∧
      (updateRatings w l draw).2.rating =
        round ((l.rating : ℝ) +
          (((if l.games_played < 30 then (40 : Int)
              else if l.games_played < 100 then 20 else 10) : Int) : ℝ) *
          ((if draw then (1 : ℝ) / 2 else 0) -
            1 / (1 + (10 : ℝ) ^ (((w.rating : ℝ) - (l.rating : ℝ)) / 400))))) ∧
    (updateRatings freshRating freshRating false).1.rating = 1520 ∧
    (updateRatings freshRating freshRating false).2.rating = 1480 := by
  have hgen : ∀ (w l : EloRating) (draw : Bool),
      (updateRatings w l draw).1.rating =
        round ((w.rating : ℝ) +
          (((if w.games_played < 30 then (40 : Int)
              else if w.games_played < 100 then 20 else 10) : Int) : ℝ) *
          ((if draw then (1 : ℝ) / 2 else 1) -
            1 / (1 + (10 : ℝ) ^ (((l.rating : ℝ) - (w.rating : ℝ)) / 400)))) ∧
      (updateRatings w l draw).2.rating =
        round ((l.rating : ℝ) +
          (((if l.games_played < 30 then (40 : Int)
              else if l.games_played < 100 then 20 else 10) : Int) : ℝ) *
          ((if draw then (1 : ℝ) / 2 else 0) -
            1 / (1 + (10 : ℝ) ^ (((w.rating : ℝ) - (l.rating : ℝ)) / 400)))) := by
    intro w l draw
    constructor <;>
      simp [updateRatings, expectedScore, getKFactor, K_NEW_PLAYER, K_NORMAL,
        K_ESTABLISHED]
  refine ⟨hgen, ?_, ?_⟩
  · rw [(hgen freshRating freshRating false).1]
    have h0 : (((freshRating.rating : Int) : ℝ) - ((freshRating.rating : Int) : ℝ)) / 400
        = 0 := by norm_num
    rw [h0, Real.rpow_zero]
    norm_num [freshRating, DEFAULT_RATING, round_eq]
  · rw [(hgen freshRating freshRating false).2]
    have h0 : (((freshRating.rating : Int) : ℝ) - ((freshRating.rating : Int) : ℝ)) / 400
        = 0 := by norm_num
    rw [h0, Real.rpow_zero]
    norm_num [freshRating, DEFAULT_RATING, round_eq]

/-- When every remaining pattern fails to match, the parse loop falls
through to the flagged failure. -/
theorem parseLoop_all_none (s : List Char) (legal : List LegalActionD)
    (mn mx ca : Option Int) :
    ∀ ps : List Pat, (∀ p ∈ ps, searchFrom p.items none s = none) →
      parseLoop s legal mn mx ca ps =
        ⟨"fold", none, false, none,
          some ("Could not parse action from response: " ++ String.mk (s.take 200))⟩ := by
  intro ps
  induction ps with
  | nil => intro _; rfl
  | cons p rest ih =>
    intro h
    have hp := h p (List.mem_cons_self p rest)
    simp only [parseLoop, hp]
    exact ih (fun q hq => h q (List.mem_cons_of_mem p hq))

/-- C8.  Parse-failure default: the empty response and any text matched by
no pattern produce a flagged failure (`success = false`) without an
exception, and the proposed default action of `get_default_action` is Check
when check is legal, else Fold, also flagged. -/
theorem C8_parse_failure_and_default :
    (∀ legal, parse "" legal =
      ⟨"fold", none, false, none, some "Empty response"⟩) ∧
    (∀ (s : String) (legal : List LegalActionD), s ≠ "" → noPatternMatches s →
      parse s legal =
        ⟨"fold", none, false, none,
          some ("Could not parse action from response: " ++
            String.mk (s.data.take 200))⟩) ∧
    (∀ legal, (getDefaultAction legal).action_type =
        (if hasType legal "check" then "check" else "fold") ∧
      (getDefaultAction legal).success = false ∧
      (getDefaultAction legal).amount = none) := by
  refine ⟨fun legal => rfl, ?_, ?_⟩
  · intro s legal hne hnp
    unfold parse
    rw [if_neg hne]
    exact parseLoop_all_none s.data legal _ _ _ PATTERNS hnp
  · intro legal
    unfold getDefaultAction
    split <;> simp_all

/-- Witness for C8: the theorem applied to the repo test's gibberish input
(which matches no pattern) under the S2 legal-action set. -/
theorem C8_parse_failure_and_default_witness :
    ("I'm thinking about something..." ≠ "") ∧
    noPatternMatches "I'm thinking about something..." ∧
    parse "I'm thinking about something..." legalS2 =
      ⟨"fold", none, false, none,
        some "Could not parse action from response: I'm thinking about something..."⟩ :=
  ⟨by decide, by decide,
    ((C8_parse_failure_and_default.2.1 "I'm thinking about something..." legalS2
        (by decide) (by decide)).trans (by decide))⟩

/-! ### Character and matcher lemmas for the general clamp proof -/

theorem digit_isWord {c : Char} (h : c.isDigit = true) : isWordChar c = true := by
  simp [isWordChar, h]

theorem digit_not_space {c : Char} (h : c.isDigit = true) : isSpaceChar c = false := by
  cases hs : isSpaceChar c
  · rfl
  · exfalso
    have hc : ((((c = ' ' ∨ c = '\t') ∨ c = '\n') ∨ c = '\r') ∨ c = '\x0b') ∨
        c = '\x0c' := by
      simpa [isSpaceChar, Bool.or_eq_true, decide_eq_true_eq] using hs
    rcases hc with ((((h1 | h1) | h1) | h1) | h1) | h1 <;> subst h1 <;>
      exact absurd h (by decide)

theorem digit_ne {c x : Char} (h : c.isDigit = true) (hx : x.isDigit = false) : c ≠ x := by
  intro e
  subst e
  rw [h] at hx
  exact absurd hx (by decide)

theorem digit_digitComma {c : Char} (h : c.isDigit = true) :
    CClass.digitComma.fn c = true := by
  simp [CClass.fn, h]

theorem leadingRun_of_all {p : Char → Bool} :
    ∀ l : List Char, (∀ c ∈ l, p c = true) → leadingRun p l = l.length := by
  intro l
  induction l with
  | nil => intro _; rfl
  | cons c t ih =>
    intro h
    have hc := h c (by simp)
    simp [leadingRun, hc, ih (fun x hx => h x (by simp [hx]))]

theorem matchSeq_wb_false {rest : List Item} {s : List Char} {prev : Option Char}
    (h : wordBoundary prev s.head? = false) :
    matchSeq (Item.wb :: rest) s prev = none := by
  simp [matchSeq, h]

theorem matchSeq_wb_true {rest : List Item} {s : List Char} {prev : Option Char}
    (h : wordBoundary prev s.head? = true) :
    matchSeq (Item.wb :: rest) s prev =
      (matchSeq rest s prev).map (fun r => ([] : List Char) :: r) := by
  simp only [matchSeq, h, if_true]
  cases matchSeq rest s prev <;> rfl

theorem matchSeq_wb_false_cons {rest : List Item} {c : Char} {t : List Char}
    {prev : Option Char} (h : wordBoundary prev (some c) = false) :
    matchSeq (Item.wb :: rest) (c :: t) prev = none :=
  matchSeq_wb_false h

theorem matchSeq_wb_true_cons {rest : List Item} {c : Char} {t : List Char}
    {prev : Option Char} (h : wordBoundary prev (some c) = true) :
    matchSeq (Item.wb :: rest) (c :: t) prev =
      (matchSeq rest (c :: t) prev).map (fun r => ([] : List Char) :: r) :=
  matchSeq_wb_true h

theorem matchSeq_lit_eq {c : Char} {rest : List Item} {s' : List Char} {prev : Option Char} :
    matchSeq (Item.lit c :: rest) (c :: s') prev =
      (matchSeq rest s' (some c)).map (fun r => [c] :: r) := by
  simp only [matchSeq, if_pos rfl]
  cases matchSeq rest s' (some c) <;> rfl

theorem matchSeq_lit_ne {c c' : Char} {rest : List Item} {s' : List Char} {prev : Option Char}
    (h : c' ≠ c) :
    matchSeq (Item.lit c :: rest) (c' :: s') prev = none := by
  simp [matchSeq, h]

theorem matchSeq_wb_lit_ne {c c' : Char} {rest : List Item} {s' : List Char}
    {prev : Option Char} (h : c' ≠ c) :
    matchSeq (Item.wb :: Item.lit c :: rest) (c' :: s') prev = none := by
  cases hb : wordBoundary prev ((c' :: s').head?)
  · exact matchSeq_wb_false hb
  · rw [matchSeq_wb_true hb, matchSeq_lit_ne h]
    rfl

theorem searchFrom_step {pat : List Item} {prev : Option Char} {c : Char} {t : List Char}
    (h : matchSeq pat (c :: t) prev = none) :
    searchFrom pat prev (c :: t) = searchFrom pat (some c) t := by
  simp only [searchFrom, h]

theorem searchFrom_nil_none {pat : List Item} {prev : Option Char}
    (h : matchSeq pat [] prev = none) :
    searchFrom pat prev [] = none := by
  simp only [searchFrom, h]

theorem searchFrom_found {pat : List Item} {prev : Option Char} {s : List Char}
    {r : List (List Char)} (h : matchSeq pat s prev = some r) :
    searchFrom pat prev s = some r := by
  cases s with
  | nil => simp only [searchFrom, h]
  | cons c t => simp only [searchFrom, h]

/-- A pattern opening with `\b` and then a non-digit literal finds no match
inside a run of digits. -/
theorem searchFrom_wbLit_digits_none {c : Char} (rest : List Item)
    (hc : c.isDigit = false) :
    ∀ (l : List Char), (∀ x ∈ l, x.isDigit = true) → ∀ prev,
      searchFrom (Item.wb :: Item.lit c :: rest) prev l = none := by
  intro l
  induction l with
  | nil =>
    intro _ prev
    apply searchFrom_nil_none
    cases hb : wordBoundary prev (([] : List Char).head?)
    · exact matchSeq_wb_false hb
    · rw [matchSeq_wb_true hb]
      rfl
  | cons d t ih =>
    intro hmem prev
    have hd : d.isDigit = true := hmem d (by simp)
    rw [searchFrom_step (matchSeq_wb_lit_ne (digit_ne hd hc))]
    exact ih (fun x hx => hmem x (by simp [hx])) (some d)

/-- `[\d,]*\b` greedily consumes a whole digit run and the final boundary
holds. -/
theorem matchSeq_dcStar_wb {t : List Char} (ht : ∀ x ∈ t, x.isDigit = true)
    {prev : Option Char} (hp : isWordOpt prev = true) :
    matchSeq [Item.cls .digitComma .star, Item.wb] t prev = some [t, []] := by
  have hrun : leadingRun CClass.digitComma.fn t = t.length :=
    leadingRun_of_all t (fun c hc => digit_digitComma (ht c hc))
  show tryCounts (fun s' prev' => matchSeq [Item.wb] s' prev') t prev
      (Quant.star.bounds (leadingRun CClass.digitComma.fn t)).2
      (Quant.star.bounds (leadingRun CClass.digitComma.fn t)).1 = some [t, []]
  rw [hrun]
  cases t with
  | nil =>
    have hb : wordBoundary prev (([] : List Char).head?) = true := by
      show (isWordOpt prev != isWordOpt none) = true
      rw [hp]
      rfl
    show tryCounts (fun s' prev' => matchSeq [Item.wb] s' prev') [] prev 0 0 = _
    rw [tryCounts]
    rw [if_pos rfl, matchSeq_wb_true hb]
    rfl
  | cons d t' =>
    show tryCounts (fun s' prev' => matchSeq [Item.wb] s' prev') (d :: t') prev 0
        (t'.length + 1) = _
    rw [tryCounts]
    rw [if_neg (by omega)]
    have hword : isWordOpt (match ((d :: t').drop t'.length).head? with
        | some c => some c
        | none => prev) = true := by
      cases hh : ((d :: t').drop t'.length).head? with
      | none => exact hp
      | some c =>
        have hcmem : c ∈ (d :: t').drop t'.length := by
          cases hdr : (d :: t').drop t'.length with
          | nil => rw [hdr] at hh; exact absurd hh (by simp)
          | cons a u =>
            rw [hdr] at hh
            simp only [List.head?] at hh
            have ha : a = c := Option.some.inj hh
            rw [ha]
            exact List.mem_cons_self c u
        have hcd : c.isDigit = true :=
          ht c (List.drop_subset _ _ hcmem)
        simpa [isWordOpt] using digit_isWord hcd
    have hdrop : (d :: t').drop (t'.length + 1) = [] := by
      have : (d :: t').length = t'.length + 1 := rfl
      rw [← this, List.drop_length]
    have hb2 : ∀ pv : Option Char, isWordOpt pv = true →
        matchSeq [Item.wb] ([] : List Char) pv = some [[]] := by
      intro pv hpv
      have hb : wordBoundary pv (([] : List Char).head?) = true := by
        show (isWordOpt pv != isWordOpt none) = true
        rw [hpv]
        rfl
      rw [matchSeq_wb_true hb]
      rfl
    rw [hdrop]
    rw [hb2 _ hword]
    have htake : (d :: t').take (t'.length + 1) = d :: t' := by
      have : (d :: t').length = t'.length + 1 := rfl
      rw [← this, List.take_length]
    rw [htake]

/-- `\d[\d,]*\b` on a nonempty digit run captures the whole run. -/
theorem matchSeq_digitGroup {d : Char} {t : List Char}
    (hd : d.isDigit = true) (ht : ∀ x ∈ t, x.isDigit = true) (prev : Option Char) :
    matchSeq [Item.cls .digit .one, Item.cls .digitComma .star, Item.wb]
      (d :: t) prev = some [[d], t, []] := by
  have hrun : leadingRun CClass.digit.fn (d :: t) = t.length + 1 := by
    have := leadingRun_of_all (p := CClass.digit.fn) (d :: t)
      (fun c hc => by
        have : c.isDigit = true := by
          rcases List.mem_cons.mp hc with h1 | h1
          · rw [h1]; exact hd
          · exact ht c h1
        simpa [CClass.fn] using this)
    simpa using this
  show tryCounts
      (fun s' prev' =>
        matchSeq [Item.cls .digitComma .star, Item.wb] s' prev') (d :: t) prev
      (Quant.one.bounds (leadingRun CClass.digit.fn (d :: t))).2
      (Quant.one.bounds (leadingRun CClass.digit.fn (d :: t))).1 = _
  rw [hrun]
  have hmin : Quant.one.bounds (t.length + 1) = (1, 1) := by
    simp [Quant.bounds, Nat.min_def]
  rw [hmin]
  rw [tryCounts]
  rw [if_neg (by omega)]
  have hstar := @matchSeq_dcStar_wb t ht (some d)
    (by simpa [isWordOpt] using digit_isWord hd)
  show (match matchSeq [Item.cls .digitComma .star, Item.wb] ((d :: t).drop 1)
      (match ((d :: t).drop 0).head? with | some c => some c | none => prev) with
    | some r => some ((d :: t).take 1 :: r)
    | none =>
        tryCounts (fun s' prev' =>
          matchSeq [Item.cls .digitComma .star, Item.wb] s' prev') (d :: t) prev 1 0) =
      some [[d], t, []]
  rw [show ((d :: t).drop 1) = t from rfl]
  rw [show (match ((d :: t).drop 0).head? with
      | some c => some c | none => prev) = some d from rfl]
  rw [hstar]
  rfl

/-- `\s+` followed by `\d[\d,]*\b` on a space and a digit run. -/
theorem matchSeq_wsPlus_digits {d : Char} {t : List Char}
    (hd : d.isDigit = true) (ht : ∀ x ∈ t, x.isDigit = true) (prev : Option Char) :
    matchSeq
      [Item.cls .ws .plus, Item.cls .digit .one, Item.cls .digitComma .star, Item.wb]
      (' ' :: d :: t) prev = some [[' '], [d], t, []] := by
  have h1 : CClass.ws.fn ' ' = true := by decide
  have h2 : CClass.ws.fn d = false := by
    simpa [CClass.fn] using digit_not_space hd
  have hrun : leadingRun CClass.ws.fn (' ' :: d :: t) = 1 := by
    simp [leadingRun, h1, h2]
  show tryCounts
      (fun s' prev' =>
          matchSeq [Item.cls .digit .one, Item.cls .digitComma .star, Item.wb] s' prev')
      (' ' :: d :: t) prev
      (Quant.plus.bounds (leadingRun CClass.ws.fn (' ' :: d :: t))).2
      (Quant.plus.bounds (leadingRun CClass.ws.fn (' ' :: d :: t))).1 = _
  rw [hrun]
  show tryCounts _ (' ' :: d :: t) prev 1 1 = _
  rw [tryCounts]
  rw [if_neg (by omega)]
  have hgrp := matchSeq_digitGroup hd ht (some ' ')
  show (match matchSeq
        [Item.cls .digit .one, Item.cls .digitComma .star, Item.wb]
        ((' ' :: d :: t).drop 1)
        (match ((' ' :: d :: t).drop 0).head? with | some c => some c | none => prev) with
    | some r => some ((' ' :: d :: t).take 1 :: r)
    | none => tryCounts _ (' ' :: d :: t) prev 1 0) = some [[' '], [d], t, []]
  rw [show ((' ' :: d :: t).drop 1) = d :: t from rfl]
  rw [show (match ((' ' :: d :: t).drop 0).head? with
      | some c => some c | none => prev) = some ' ' from rfl]
  rw [hgrp]
  rfl

/-- `\s+` followed by a non-digit literal fails on a space and a digit run
(the backtracking has no other split to try). -/
theorem matchSeq_wsPlus_lit_digits {c : Char} (rest : List Item)
    (hcd : c.isDigit = false) {d : Char} {t : List Char}
    (hd : d.isDigit = true) (prev : Option Char) :
    matchSeq (Item.cls .ws .plus :: Item.lit c :: rest) (' ' :: d :: t) prev = none := by
  have h1 : CClass.ws.fn ' ' = true := by decide
  have h2 : CClass.ws.fn d = false := by
    simpa [CClass.fn] using digit_not_space hd
  have hrun : leadingRun CClass.ws.fn (' ' :: d :: t) = 1 := by
    simp [leadingRun, h1, h2]
  show tryCounts (fun s' prev' => matchSeq (Item.lit c :: rest) s' prev')
      (' ' :: d :: t) prev
      (Quant.plus.bounds (leadingRun CClass.ws.fn (' ' :: d :: t))).2
      (Quant.plus.bounds (leadingRun CClass.ws.fn (' ' :: d :: t))).1 = none
  rw [hrun]
  show tryCounts _ (' ' :: d :: t) prev 1 1 = none
  rw [tryCounts]
  rw [if_neg (by omega)]
  have hfail : matchSeq (Item.lit c :: rest) (d :: t) (some ' ') = none :=
    matchSeq_lit_ne (digit_ne hd hcd)
  show (match matchSeq (Item.lit c :: rest) ((' ' :: d :: t).drop 1)
      (match ((' ' :: d :: t).drop 0).head? with | some c' => some c' | none => prev) with
    | some r => some ((' ' :: d :: t).take 1 :: r)
    | none => tryCounts (fun s' prev' => matchSeq (Item.lit c :: rest) s' prev')
        (' ' :: d :: t) prev 1 0) = none
  rw [show ((' ' :: d :: t).drop 1) = d :: t from rfl]
  rw [show (match ((' ' :: d :: t).drop 0).head? with
      | some c' => some c' | none => prev) = some ' ' from rfl]
  rw [hfail]
  rw [tryCounts]
  rw [if_neg (by omega)]

/-- A pattern `\bc…` with `c ∉ {'R', ' ', digits}` finds no match in
`"RAISE "` followed by digits. -/
theorem searchFrom_wbLit_on_RAISE (c : Char) (rest : List Item)
    (hc1 : c ≠ 'R') (hc2 : c ≠ ' ') (hcd : c.isDigit = false)
    (ds : List Char) (hd : ∀ x ∈ ds, x.isDigit = true) :
    searchFrom (Item.wb :: Item.lit c :: rest) none
      ('R' :: 'A' :: 'I' :: 'S' :: 'E' :: ' ' :: ds) = none := by
  rw [searchFrom_step (matchSeq_wb_lit_ne (Ne.symm hc1)),
      searchFrom_step (matchSeq_wb_false_cons (by decide)),
      searchFrom_step (matchSeq_wb_false_cons (by decide)),
      searchFrom_step (matchSeq_wb_false_cons (by decide)),
      searchFrom_step (matchSeq_wb_false_cons (by decide)),
      searchFrom_step (matchSeq_wb_lit_ne (Ne.symm hc2))]
  exact searchFrom_wbLit_digits_none rest hcd ds hd (some ' ')

/-- The `\bRAISE\s+TO\s+(\d[\d,]*)\b` pattern finds no match in `"RAISE "`
followed by digits (the `T` never arrives). -/
theorem searchFrom_RAISETO_none {d : Char} {t : List Char}
    (hd : d.isDigit = true) (ht : ∀ x ∈ d :: t, x.isDigit = true) :
    searchFrom (amountItems2 "RAISE" "TO") none
      ('R' :: 'A' :: 'I' :: 'S' :: 'E' :: ' ' :: d :: t) = none := by
  have e : amountItems2 "RAISE" "TO" =
      [Item.wb, Item.lit 'R', Item.lit 'A', Item.lit 'I', Item.lit 'S', Item.lit 'E',
       Item.cls .ws .plus, Item.lit 'T', Item.lit 'O',
       Item.cls .ws .plus, Item.cls .digit .one, Item.cls .digitComma .star,
       Item.wb] := rfl
  rw [e]
  have h0 : matchSeq
      [Item.wb, Item.lit 'R', Item.lit 'A', Item.lit 'I', Item.lit 'S', Item.lit 'E',
       Item.cls .ws .plus, Item.lit 'T', Item.lit 'O',
       Item.cls .ws .plus, Item.cls .digit .one, Item.cls .digitComma .star, Item.wb]
      ('R' :: 'A' :: 'I' :: 'S' :: 'E' :: ' ' :: d :: t) none = none := by
    rw [matchSeq_wb_true_cons (by decide), matchSeq_lit_eq, matchSeq_lit_eq,
        matchSeq_lit_eq, matchSeq_lit_eq, matchSeq_lit_eq,
        matchSeq_wsPlus_lit_digits _ (by decide) hd (some 'E')]
    rfl
  rw [searchFrom_step h0,
      searchFrom_step (matchSeq_wb_false_cons (by decide)),
      searchFrom_step (matchSeq_wb_false_cons (by decide)),
      searchFrom_step (matchSeq_wb_false_cons (by decide)),
      searchFrom_step (matchSeq_wb_false_cons (by decide)),
      searchFrom_step (matchSeq_wb_lit_ne (by decide))]
  exact searchFrom_wbLit_digits_none _ (by decide) (d :: t) ht (some ' ')

/-- The `\bRAISE\s+(\d[\d,]*)\b` pattern matches `"RAISE "` followed by a
digit run, capturing the whole run. -/
theorem searchFrom_RAISE_amount {d : Char} {t : List Char}
    (hd : d.isDigit = true) (ht : ∀ x ∈ t, x.isDigit = true) :
    searchFrom (amountItems "RAISE") none
      ('R' :: 'A' :: 'I' :: 'S' :: 'E' :: ' ' :: d :: t) =
      some [[], ['R'], ['A'], ['I'], ['S'], ['E'], [' '], [d], t, []] := by
  have e : amountItems "RAISE" =
      [Item.wb, Item.lit 'R', Item.lit 'A', Item.lit 'I', Item.lit 'S', Item.lit 'E',
       Item.cls .ws .plus, Item.cls .digit .one, Item.cls .digitComma .star,
       Item.wb] := rfl
  rw [e]
  apply searchFrom_found
  rw [matchSeq_wb_true_cons (by decide), matchSeq_lit_eq, matchSeq_lit_eq,
      matchSeq_lit_eq, matchSeq_lit_eq, matchSeq_lit_eq,
      matchSeq_wsPlus_digits hd ht (some 'E')]
  rfl

/-- A pattern whose search fails is skipped by the parse loop. -/
theorem parseLoop_cons_none {s : List Char} {legal : List LegalActionD}
    {mn mx ca : Option Int} {p : Pat} {rest : List Pat}
    (h : searchFrom p.items none s = none) :
    parseLoop s legal mn mx ca (p :: rest) = parseLoop s legal mn mx ca rest := by
  simp only [parseLoop, h]

/-- A raise pattern with an amount group whose search succeeds, with raise
legal, yields the clamped raise. -/
theorem parseLoop_cons_raise_amount {s : List Char} {legal : List LegalActionD}
    {mn mx ca : Option Int} {items : List Item} {g : Nat × Nat} {rest : List Pat}
    {r : List (List Char)}
    (hs : searchFrom items none s = some r)
    (hraise : hasType legal "raise" = true) :
    parseLoop s legal mn mx ca (⟨items, "raise", some 1, g⟩ :: rest) =
      ⟨"raise", clampRaise (parsedAmount (groupChars r g.1 g.2)) mn mx, true,
        some (String.mk r.flatten), none⟩ := by
  simp only [parseLoop, hs, hraise]
  simp

/-- C2.  Raise clamping and illegal-action downgrade, on the spec's S2
legal-action set: "RAISE 250" clamps up to the 400 minimum, "RAISE 9999"
clamps down to the 1000 maximum, and "check it" is downgraded to the call of
200 because check is illegal; in general, for any digit string N after
"RAISE " and any positive `min_raise`/`max_raise`, the parsed amount is
`max min_raise (min N max_raise)`. -/
theorem C2_raise_clamp_and_downgrade :
    parse "RAISE 250" legalS2 =
      ⟨"raise", some 400, true, some "RAISE 250", none⟩ ∧
    parse "RAISE 9999" legalS2 =
      ⟨"raise", some 1000, true, some "RAISE 9999", none⟩ ∧
    parse "check it" legalS2 =
      ⟨"call", some 200, true, some "check", none⟩ ∧
    (∀ (d : Char) (t : List Char) (mn mx ca : Int),
      d.isDigit = true → (∀ x ∈ t, x.isDigit = true) → 0 < mn → 0 < mx →
      parse (String.mk ('R' :: 'A' :: 'I' :: 'S' :: 'E' :: ' ' :: d :: t))
        [⟨"fold", none, none, none⟩, ⟨"call", some ca, none, none⟩,
         ⟨"raise", none, some mn, some mx⟩] =
        ⟨"raise", some (max mn (min (pyIntOfDigits (d :: t) : Int) mx)), true,
          some (String.mk ('R' :: 'A' :: 'I' :: 'S' :: 'E' :: ' ' :: d :: t)),
          none⟩) := by
  refine ⟨by decide, by decide, by decide, ?_⟩
  intro d t mn mx ca hd ht hmn hmx
  have hdt : ∀ x ∈ d :: t, x.isDigit = true := by
    intro x hx
    rcases List.mem_cons.mp hx with h1 | h1
    · rw [h1]; exact hd
    · exact ht x h1
  have hne : ¬ (String.mk ('R' :: 'A' :: 'I' :: 'S' :: 'E' :: ' ' :: d :: t) = "") := by
    intro h
    exact List.noConfusion (congrArg String.data h)
  unfold parse
  rw [if_neg hne]
  show parseLoop ('R' :: 'A' :: 'I' :: 'S' :: 'E' :: ' ' :: d :: t)
      [⟨"fold", none, none, none⟩, ⟨"call", some ca, none, none⟩,
       ⟨"raise", none, some mn, some mx⟩]
      (some mn) (some mx) (some ca) PATTERNS = _
  have hP : PATTERNS =
      ⟨[Item.wb, Item.lit 'A', Item.lit 'L', Item.lit 'L', Item.cls .wsHyphen .opt,
        Item.lit 'I', Item.lit 'N', Item.wb], "allin", none, (1, 6)⟩ ::
      ⟨[Item.wb, Item.lit 'g', Item.lit 'o', Item.cls .ws .plus, Item.lit 'a',
        Item.lit 'l', Item.lit 'l', Item.cls .wsHyphen .opt, Item.lit 'i',
        Item.lit 'n', Item.wb], "allin", none, (0, 0)⟩ ::
      ⟨amountItems2 "RAISE" "TO", "raise", some 1, (10, 2)⟩ ::
      ⟨amountItems "RAISE", "raise", some 1, (7, 2)⟩ :: PATTERNS.drop 4 := rfl
  rw [hP]
  rw [parseLoop_cons_none
      (searchFrom_wbLit_on_RAISE 'A' _ (by decide) (by decide) (by decide) _ hdt)]
  rw [parseLoop_cons_none
      (searchFrom_wbLit_on_RAISE 'g' _ (by decide) (by decide) (by decide) _ hdt)]
  rw [parseLoop_cons_none (searchFrom_RAISETO_none hd hdt)]
  rw [parseLoop_cons_raise_amount (searchFrom_RAISE_amount hd ht) (by rfl)]
  have hfil : (d :: t).filter (fun c => decide (c ≠ ',')) = d :: t :=
    List.filter_eq_self.mpr
      (fun a ha => by simpa using digit_ne (hdt a ha) (by decide))
  have hfil2 : List.filter (fun c => !decide (c = ',')) (d :: t) = d :: t :=
    List.filter_eq_self.mpr
      (fun a ha => by simpa using digit_ne (hdt a ha) (by decide))
  have hall : (d :: t).all Char.isDigit = true := List.all_eq_true.mpr hdt
  simp only [groupChars, parsedAmount, clampRaise, truthy]
  simp [hfil, hfil2, hall, hmn.ne', hmx.ne']

/-- Witness for C2: the general clamp applied to "RAISE 250" with the S2
amounts (250 is promoted to the 400 minimum). -/
theorem C2_raise_clamp_and_downgrade_witness :
    ('2' : Char).isDigit = true ∧ (∀ x ∈ ['5', '0'], Char.isDigit x = true) ∧
    (0 : Int) < 400 ∧ (0 : Int) < 1000 ∧
    parse (String.mk ('R' :: 'A' :: 'I' :: 'S' :: 'E' :: ' ' :: '2' :: ['5', '0']))
      [⟨"fold", none, none, none⟩, ⟨"call", some 200, none, none⟩,
       ⟨"raise", none, some 400, some 1000⟩] =
      ⟨"raise", some (max 400 (min (pyIntOfDigits ('2' :: ['5', '0']) : Int) 1000)),
        true,
        some (String.mk ('R' :: 'A' :: 'I' :: 'S' :: 'E' :: ' ' :: '2' :: ['5', '0'])),
        none⟩ :=
  ⟨by decide, by decide, by decide, by decide,
   C2_raise_clamp_and_downgrade.2.2.2 '2' ['5', '0'] 400 1000 200
     (by decide) (by decide) (by decide) (by decide)⟩

/-- Each seat's stack-plus-commitment is preserved by the betting, as long
as every commitment is covered by the seat's stack. -/
theorem playCommits_sum_invariant {n : Nat} :
    ∀ (cs : List (Fin n × Nat)) (st : ChipState n), validCommits cs st →
      ∀ i, (playCommits cs st).stacks i + (playCommits cs st).committed i =
        st.stacks i + st.committed i := by
  intro cs
  induction cs with
  | nil => intro st _ i; rfl
  | cons hc tc ih =>
    obtain ⟨j, c⟩ := hc
    intro st hv i
    obtain ⟨hle, hv'⟩ := hv
    have h2 := ih (commitChips st j c) hv' i
    show (playCommits tc (commitChips st j c)).stacks i +
        (playCommits tc (commitChips st j c)).committed i = _
    rw [h2]
    by_cases hij : i = j
    · subst hij
      simp only [commitChips, Function.update_same]
      omega
    · simp only [commitChips, Function.update_noteq hij]

/-- C1.  Chip conservation: after any hand (any sequence of in-stack
commitments followed by a distribution of the whole pot, zero rake), each
seat's ending stack is its starting stack plus its payoff, and the sum of
the ending stacks equals the sum of the starting stacks. -/
theorem C1_chip_conservation {n : Nat} (starting : Fin n → Nat)
    (cs : List (Fin n × Nat)) (d : Fin n → Nat)
    (hv : validCommits cs (initChips starting))
    (hd : ∑ i, d i = potOf (playCommits cs (initChips starting))) :
    (∀ i, ((stacksAfterAward (playCommits cs (initChips starting)) d i : Nat) : Int) =
      (starting i : Int) + payoffsOf (playCommits cs (initChips starting)) d i) ∧
    (∑ i, ((starting i : Int) + payoffsOf (playCommits cs (initChips starting)) d i)) =
      ∑ i, (starting i : Int) := by
  have hinv : ∀ i, (playCommits cs (initChips starting)).stacks i +
      (playCommits cs (initChips starting)).committed i = starting i := by
    intro i
    have h := playCommits_sum_invariant cs (initChips starting) hv i
    simpa [initChips] using h
  constructor
  · intro i
    have h := hinv i
    simp only [stacksAfterAward, payoffsOf]
    push_cast
    omega
  · have hdi : ∑ i, ((d i : Nat) : Int) =
        ∑ i, ((playCommits cs (initChips starting)).committed i : Int) := by
      have h := congrArg (fun x : Nat => (x : Int)) hd
      push_cast [potOf] at h
      exact h
    simp only [payoffsOf]
    rw [Finset.sum_add_distrib, Finset.sum_sub_distrib, hdi]
    have hsum : ∀ i : Fin n,
        ((playCommits cs (initChips starting)).committed i : Int) ≤
          ((playCommits cs (initChips starting)).committed i : Int) := fun _ => le_refl _
    ring

/-- Witness for C1: a two-seat hand where seat 0 and seat 1 each commit 30
and seat 0 is awarded the whole 60-chip pot; ending stacks sum to the
starting 300. -/
theorem C1_chip_conservation_witness :
    validCommits [((0 : Fin 2), 30), ((1 : Fin 2), 30)] (initChips ![100, 200]) ∧
    (∑ i, (![60, 0] : Fin 2 → Nat) i =
      potOf (playCommits [((0 : Fin 2), 30), ((1 : Fin 2), 30)]
        (initChips ![100, 200]))) ∧
    (∑ i, (((![100, 200] : Fin 2 → Nat) i : Int) +
        payoffsOf (playCommits [((0 : Fin 2), 30), ((1 : Fin 2), 30)]
          (initChips ![100, 200])) ![60, 0] i)) =
      ∑ i, (((![100, 200] : Fin 2 → Nat) i : Int)) :=
  ⟨by decide, by decide,
   (C1_chip_conservation ![100, 200] [((0 : Fin 2), 30), ((1 : Fin 2), 30)] ![60, 0]
      (by decide) (by decide)).2⟩

end LlmPoker
